import Mathlib

/-!
Verification of the authingy OAuth orchestration library (TypeScript) against
its natural-language specification.

Shallow embedding conventions:
* JS byte buffers are `List Byte` with `Byte := Fin 256`.
* JS strings holding hex material are modelled as `List Char`; ordinary strings
  are Lean `String`.
* External platform primitives (node's AES-256-GCM cipher, SHA-256, UTF-8
  encoding, `JSON.stringify`/`JSON.parse`, HTTP fetch) are not code of this
  repository; they are passed in as explicit function parameters (`Prims`,
  network parameters) and the theorems state the contract assumed of them as
  hypotheses.  All repository code (hex packing/splitting, length checks,
  orchestration control flow, providers) is translated concretely.
* A JS function that throws is modelled as returning `Except AuthErr` /
  `Option`; `decrypt`'s `false` failure value is `Option.none`.
-/

set_option autoImplicit false

abbrev Byte := Fin 256

/-- JSON-style values usable inside a serialized key/value record. -/
inductive JVal where
  | str (s : String)
  | num (n : Int)
  | bool (b : Bool)
  | null
deriving DecidableEq, Repr

/-- A JS plain object (`Record<string, unknown>`): insertion-ordered key/value
pairs (JS objects never hold the same key twice). -/
abbrev Obj := List (String × JVal)

/-! ### Hex encoding (Buffer.toString('hex') / Buffer.from(str, 'hex')) -/

/-- Lowercase hex digit for a nibble, as produced by `Buffer.toString('hex')`. -/
def hexDigitChar (n : Nat) : Char :=
  if n = 0 then '0' else if n = 1 then '1' else if n = 2 then '2'
  else if n = 3 then '3' else if n = 4 then '4' else if n = 5 then '5'
  else if n = 6 then '6' else if n = 7 then '7' else if n = 8 then '8'
  else if n = 9 then '9' else if n = 10 then 'a' else if n = 11 then 'b'
  else if n = 12 then 'c' else if n = 13 then 'd' else if n = 14 then 'e'
  else 'f'

/-- Hex digit value of a character; `Buffer.from(_, 'hex')` accepts both the
lowercase and the uppercase letters. -/
def hexCharVal (c : Char) : Option (Fin 16) :=
  if c = '0' then some 0 else if c = '1' then some 1 else if c = '2' then some 2
  else if c = '3' then some 3 else if c = '4' then some 4 else if c = '5' then some 5
  else if c = '6' then some 6 else if c = '7' then some 7 else if c = '8' then some 8
  else if c = '9' then some 9
  else if c = 'a' then some 10 else if c = 'A' then some 10
  else if c = 'b' then some 11 else if c = 'B' then some 11
  else if c = 'c' then some 12 else if c = 'C' then some 12
  else if c = 'd' then some 13 else if c = 'D' then some 13
  else if c = 'e' then some 14 else if c = 'E' then some 14
  else if c = 'f' then some 15 else if c = 'F' then some 15
  else none

/-- `buf.toString('hex')`: two lowercase hex characters per byte. -/
def hexEncode : List Byte → List Char
  | [] => []
  | b :: bs => hexDigitChar (b.val / 16) :: hexDigitChar (b.val % 16) :: hexEncode bs

/-- `Buffer.from(s, 'hex')`: decodes character pairs, stopping at the first
pair that is not two hex digits (a dangling final character is dropped). -/
def hexDecode : List Char → List Byte
  | c1 :: c2 :: rest =>
    match hexCharVal c1, hexCharVal c2 with
    | some h, some l =>
      (⟨h.val * 16 + l.val, by have hh := h.isLt; have hl := l.isLt; omega⟩ : Byte)
        :: hexDecode rest
    | _, _ => []
  | _ => []

theorem hexCharVal_hexDigitChar :
    ∀ n : Fin 16, hexCharVal (hexDigitChar n.val) = some n := by decide

theorem hexEncode_length (bs : List Byte) : (hexEncode bs).length = 2 * bs.length := by
  induction bs with
  | nil => rfl
  | cons b bs ih => simp [hexEncode, ih]; omega

theorem hexDecode_hexEncode (bs : List Byte) : hexDecode (hexEncode bs) = bs := by
  induction bs with
  | nil => rfl
  | cons b bs ih =>
    have hdiv : b.val / 16 < 16 := by have := b.isLt; omega
    have hmod : b.val % 16 < 16 := by have := b.isLt; omega
    have h1 := hexCharVal_hexDigitChar ⟨b.val / 16, hdiv⟩
    have h2 := hexCharVal_hexDigitChar ⟨b.val % 16, hmod⟩
    simp only [hexEncode, hexDecode, h1, h2, ih]
    congr 1
    apply Fin.ext
    show b.val / 16 * 16 + b.val % 16 = b.val
    omega

theorem hexEncode_injective {bs1 bs2 : List Byte}
    (h : hexEncode bs1 = hexEncode bs2) : bs1 = bs2 := by
  have := congrArg hexDecode h
  rwa [hexDecode_hexEncode, hexDecode_hexEncode] at this

/-! ### SealedState codec (src/crypto.ts) -/

/-- External platform primitives used by `crypto.ts`.  None of these is code of
this repository: `sha256` and the AES-256-GCM cipher live in node's `crypto`
module, `utf8` is the runtime's string encoder, and `jsonStr`/`jsonParse`
compose `JSON.stringify`/`JSON.parse` with UTF-8 (a parse result that is not an
object, or a parse exception, is `none`).  Theorems state the contract assumed
of these functions as explicit hypotheses. -/
structure Prims where
  sha256 : List Byte → List Byte
  utf8 : String → List Byte
  jsonStr : Obj → List Byte
  jsonParse : List Byte → Option Obj
  gcmEnc : List Byte → List Byte → List Byte → List Byte × List Byte
  gcmDec : List Byte → List Byte → List Byte → List Byte → Option (List Byte)

/-- IV_LENGTH = 16. -/
def ivLength : Nat := 16

/-- GCM_TAG_LENGTH = 16. -/
def gcmTagLength : Nat := 16

/-- keyToBuffer: sha256 digest of the utf8-encoded key string. -/
def keyToBuffer (P : Prims) (key : String) : List Byte :=
  P.sha256 (P.utf8 key)

/-- `encrypt(key, data)` from src/crypto.ts.  The fresh random nonce
(`crypto.randomBytes(IV_LENGTH)`) is passed in as the explicit argument `iv`;
the result is `iv.toString('hex') + encrypted + tag.toString('hex')`. -/
def encrypt (P : Prims) (key : String) (data : Obj) (iv : List Byte) : List Char :=
  let keyBuffer := keyToBuffer P key
  let plainText := P.jsonStr data
  let ctTag := P.gcmEnc keyBuffer iv plainText
  hexEncode iv ++ hexEncode ctTag.1 ++ hexEncode ctTag.2

/-- `decrypt(key, encryptedText)` from src/crypto.ts; the failure value
`false` is modelled as `none`.  Splits by fixed offsets, re-derives the key,
checks the decoded lengths, then runs GCM decryption (which verifies the
authentication tag) and `JSON.parse`. -/
def decrypt (P : Prims) (key : String) (encryptedText : List Char) : Option Obj :=
  let minLength := (ivLength + gcmTagLength) * 2 + 2
  if encryptedText.length < minLength then none
  else
    let keyBuffer := keyToBuffer P key
    let iv := hexDecode (encryptedText.take (ivLength * 2))
    let tag := hexDecode (encryptedText.drop (encryptedText.length - gcmTagLength * 2))
    let encrypted := hexDecode
      ((encryptedText.drop (ivLength * 2)).take
        (encryptedText.length - gcmTagLength * 2 - ivLength * 2))
    if iv.length ≠ ivLength ∨ tag.length ≠ gcmTagLength ∨ encrypted.length = 0 then none
    else
      match P.gcmDec keyBuffer iv encrypted tag with
      | none => none
      | some decrypted => P.jsonParse decrypted

/-- The nonce/ciphertext/tag triple that `decrypt` splits an input into. -/
def parsedTriple (s : List Char) : List Byte × List Byte × List Byte :=
  (hexDecode (s.take (ivLength * 2)),
   hexDecode ((s.drop (ivLength * 2)).take (s.length - gcmTagLength * 2 - ivLength * 2)),
   hexDecode (s.drop (s.length - gcmTagLength * 2)))

/-- One seal-then-unseal round trip at a fixed nonce. -/
def roundTrip (P : Prims) (key : String) (iv : List Byte) (m : Obj) : Option Obj :=
  decrypt P key (encrypt P key m iv)

/-- n consecutive seal/unseal round trips. -/
def roundTripIter (P : Prims) (key : String) (iv : List Byte) : Nat → Obj → Option Obj
  | 0, m => some m
  | n + 1, m => (roundTrip P key iv m).bind (roundTripIter P key iv n)

theorem take_append_left {α : Type} (l1 l2 : List α) (n : Nat) (h : l1.length = n) :
    (l1 ++ l2).take n = l1 := by
  subst h; simp

theorem drop_append_left {α : Type} (l1 l2 : List α) (n : Nat) (h : l1.length = n) :
    (l1 ++ l2).drop n = l2 := by
  subst h; simp

/-- Parsing an honestly assembled `hexEncode iv ++ hexEncode ct ++ hexEncode tag`
string recovers the triple, provided iv and tag have their fixed lengths. -/
theorem parsedTriple_assemble (iv ct tag : List Byte)
    (hiv : iv.length = 16) (htag : tag.length = 16) :
    parsedTriple (hexEncode iv ++ hexEncode ct ++ hexEncode tag) = (iv, ct, tag) := by
  have hivl : (hexEncode iv).length = 32 := by rw [hexEncode_length, hiv]
  have htagl : (hexEncode tag).length = 32 := by rw [hexEncode_length, htag]
  have hctl : (hexEncode ct).length = 2 * ct.length := hexEncode_length ct
  have hlen : (hexEncode iv ++ hexEncode ct ++ hexEncode tag).length
      = 64 + 2 * ct.length := by
    simp [hivl, htagl, hctl]; omega
  unfold parsedTriple
  rw [List.append_assoc]
  have h1 : (hexEncode iv ++ (hexEncode ct ++ hexEncode tag)).take (ivLength * 2)
      = hexEncode iv := take_append_left _ _ _ (by simpa using hivl)
  have h2 : (hexEncode iv ++ (hexEncode ct ++ hexEncode tag)).drop (ivLength * 2)
      = hexEncode ct ++ hexEncode tag := drop_append_left _ _ _ (by simpa using hivl)
  rw [h1, h2]
  have hLen2 : (hexEncode iv ++ (hexEncode ct ++ hexEncode tag)).length
      = 64 + 2 * ct.length := by rw [← List.append_assoc]; exact hlen
  rw [hLen2]
  have e1 : 64 + 2 * ct.length - gcmTagLength * 2 - ivLength * 2 = 2 * ct.length := by
    simp only [gcmTagLength, ivLength]; omega
  have e2 : 64 + 2 * ct.length - gcmTagLength * 2 = 32 + 2 * ct.length := by
    simp only [gcmTagLength]; omega
  rw [e1, e2, take_append_left _ _ _ hctl]
  have h4 : (hexEncode iv ++ (hexEncode ct ++ hexEncode tag)).drop
      (32 + 2 * ct.length) = hexEncode tag := by
    rw [← List.append_assoc]
    exact drop_append_left _ _ _ (by rw [List.length_append, hivl, hctl])
  rw [h4, hexDecode_hexEncode, hexDecode_hexEncode, hexDecode_hexEncode]

/-- For input of at least the minimum length, `decrypt` is the length checks
followed by GCM tag verification and JSON parsing of the parsed triple. -/
theorem decrypt_eq_parsedTriple (P : Prims) (key : String) (s : List Char)
    (h : ¬ s.length < (ivLength + gcmTagLength) * 2 + 2) :
    decrypt P key s =
      (if (parsedTriple s).1.length ≠ ivLength ∨ (parsedTriple s).2.2.length ≠ gcmTagLength
          ∨ (parsedTriple s).2.1.length = 0 then none
       else match P.gcmDec (keyToBuffer P key) (parsedTriple s).1 (parsedTriple s).2.1
              (parsedTriple s).2.2 with
            | none => none
            | some d => P.jsonParse d) := by
  simp only [decrypt, parsedTriple, if_neg h]

/-- Decrypting an honestly assembled nonce/ciphertext/tag string reduces to
GCM verification followed by JSON parsing. -/
theorem decrypt_assemble (P : Prims) (key : String) (iv ct tag : List Byte)
    (hiv : iv.length = 16) (htag : tag.length = 16) (hct : ct ≠ []) :
    decrypt P key (hexEncode iv ++ hexEncode ct ++ hexEncode tag) =
      match P.gcmDec (keyToBuffer P key) iv ct tag with
      | none => none
      | some d => P.jsonParse d := by
  have hctpos : 1 ≤ ct.length := by
    cases ct with
    | nil => exact absurd rfl hct
    | cons a l => simp
  have hlen : (hexEncode iv ++ hexEncode ct ++ hexEncode tag).length
      = 64 + 2 * ct.length := by
    simp [hexEncode_length, hiv, htag]; omega
  have hge : ¬ (hexEncode iv ++ hexEncode ct ++ hexEncode tag).length
      < (ivLength + gcmTagLength) * 2 + 2 := by
    rw [hlen]
    show ¬ 64 + 2 * ct.length < (16 + 16) * 2 + 2
    omega
  rw [decrypt_eq_parsedTriple _ _ _ hge, parsedTriple_assemble iv ct tag hiv htag]
  have hcond : ¬ ((iv, ct, tag).1.length ≠ ivLength
      ∨ (iv, ct, tag).2.2.length ≠ gcmTagLength ∨ (iv, ct, tag).2.1.length = 0) := by
    intro h
    rcases h with h | h | h
    · exact h (by rw [show (iv, ct, tag).1 = iv from rfl, hiv]; rfl)
    · exact h (by rw [show (iv, ct, tag).2.2 = tag from rfl, htag]; rfl)
    · have hz : ct.length = 0 := h
      omega
  rw [if_neg hcond]

/-! ### Concrete witness instances of the external primitives

These are not code of the repository; they are small executable stand-ins for
the platform primitives, used to instantiate the parameterized theorems at
concrete inputs.  `toyJsonStr`/`toyJsonParse` form a length-prefixed
serializer for small objects, and `toyGcmEnc`/`toyGcmDec` are an identity
cipher with a constant verification tag (sufficient for the correctness-only
hypotheses; theorems needing authenticity use the stricter instance below). -/

def byteOfChar (c : Char) : Byte := ⟨c.toNat % 256, by omega⟩

def charOfByte (b : Byte) : Char := Char.ofNat b.val

def bytesOfString (s : String) : List Byte := s.data.map byteOfChar

def encStr (s : String) : List Byte :=
  (⟨s.length % 256, by omega⟩ : Byte) :: bytesOfString s

def decStr : List Byte → Option (String × List Byte)
  | [] => none
  | n :: rest =>
    if n.val ≤ rest.length then
      some (String.mk ((rest.take n.val).map charOfByte), rest.drop n.val)
    else none

def encVal : JVal → List Byte
  | .str s => (0 : Byte) :: encStr s
  | .num i => (1 : Byte) :: encStr (toString i)
  | .bool true => [(2 : Byte)]
  | .bool false => [(3 : Byte)]
  | .null => [(4 : Byte)]

def decVal : List Byte → Option (JVal × List Byte)
  | [] => none
  | t :: rest =>
    if t = (0 : Byte) then (decStr rest).map (fun p => (JVal.str p.1, p.2))
    else if t = (1 : Byte) then
      (decStr rest).bind (fun p => (p.1.toInt?).map (fun i => (JVal.num i, p.2)))
    else if t = (2 : Byte) then some (JVal.bool true, rest)
    else if t = (3 : Byte) then some (JVal.bool false, rest)
    else if t = (4 : Byte) then some (JVal.null, rest)
    else none

def encPairs : Obj → List Byte
  | [] => []
  | (k, v) :: rest => encStr k ++ encVal v ++ encPairs rest

def toyJsonStr (m : Obj) : List Byte :=
  (⟨m.length % 256, by omega⟩ : Byte) :: encPairs m

def decPairs : Nat → List Byte → Option (Obj × List Byte)
  | 0, bs => some ([], bs)
  | n + 1, bs =>
    (decStr bs).bind fun p =>
      (decVal p.2).bind fun q =>
        (decPairs n q.2).map fun r => ((p.1, q.1) :: r.1, r.2)

def toyJsonParse (bs : List Byte) : Option Obj :=
  match bs with
  | [] => none
  | n :: rest =>
    match decPairs n.val rest with
    | some (o, []) => some o
    | _ => none

def toyTag : List Byte := List.replicate 16 (170 : Byte)

def toyGcmEnc (_key _iv pt : List Byte) : List Byte × List Byte := (pt, toyTag)

def toyGcmDec (_key _iv ct tag : List Byte) : Option (List Byte) :=
  if tag = toyTag then some ct else none

def toySha (bs : List Byte) : List Byte := (bs ++ List.replicate 32 (0 : Byte)).take 32

def toyPrims : Prims :=
  ⟨toySha, bytesOfString, toyJsonStr, toyJsonParse, toyGcmEnc, toyGcmDec⟩

def ivZero : List Byte := List.replicate 16 (0 : Byte)

def ivOne : List Byte := List.replicate 16 (1 : Byte)


/-- Helper: a single seal/unseal round trip recovers the mapping, under the
documented contract of the external primitives. -/
theorem decrypt_encrypt (P : Prims) (secret : String) (M : Obj) (iv : List Byte)
    (hiv : iv.length = 16)
    (hctne : (P.gcmEnc (keyToBuffer P secret) iv (P.jsonStr M)).1 ≠ [])
    (htag : (P.gcmEnc (keyToBuffer P secret) iv (P.jsonStr M)).2.length = 16)
    (hgcm : P.gcmDec (keyToBuffer P secret) iv
        (P.gcmEnc (keyToBuffer P secret) iv (P.jsonStr M)).1
        (P.gcmEnc (keyToBuffer P secret) iv (P.jsonStr M)).2 = some (P.jsonStr M))
    (hjson : P.jsonParse (P.jsonStr M) = some M) :
    decrypt P secret (encrypt P secret M iv) = some M := by
  rw [show encrypt P secret M iv
      = hexEncode iv ++ hexEncode (P.gcmEnc (keyToBuffer P secret) iv (P.jsonStr M)).1
        ++ hexEncode (P.gcmEnc (keyToBuffer P secret) iv (P.jsonStr M)).2 from rfl]
  rw [decrypt_assemble P secret iv _ _ hiv htag hctne, hgcm]
  exact hjson

/-- C1: for every secret S and mapping M representable in the plaintext
serialization format, unsealing the sealed value recovers exactly the original
mapping — `decrypt S (encrypt S M) = some M` — and this holds for any number
of seal/unseal round trips.  The hypotheses state the documented contract of
the external primitives: AES-256-GCM decryption inverts encryption under the
same key and nonce, the GCM tag is 16 bytes, the ciphertext of a nonempty
plaintext is nonempty, and `JSON.parse` inverts `JSON.stringify`. -/
theorem C1_seal_unseal_roundTrip (P : Prims) (secret : String) (M : Obj)
    (iv : List Byte)
    (hiv : iv.length = 16)
    (hctne : (P.gcmEnc (keyToBuffer P secret) iv (P.jsonStr M)).1 ≠ [])
    (htag : (P.gcmEnc (keyToBuffer P secret) iv (P.jsonStr M)).2.length = 16)
    (hgcm : P.gcmDec (keyToBuffer P secret) iv
        (P.gcmEnc (keyToBuffer P secret) iv (P.jsonStr M)).1
        (P.gcmEnc (keyToBuffer P secret) iv (P.jsonStr M)).2 = some (P.jsonStr M))
    (hjson : P.jsonParse (P.jsonStr M) = some M) :
    roundTrip P secret iv M = some M ∧
      ∀ n, roundTripIter P secret iv n M = some M := by
  have h1 : roundTrip P secret iv M = some M :=
    decrypt_encrypt P secret M iv hiv hctne htag hgcm hjson
  refine ⟨h1, ?_⟩
  intro n
  induction n with
  | zero => rfl
  | succ k ih => simp [roundTripIter, h1, ih]

/-- Witness for C1 at a concrete secret, mapping and nonce, using the toy
primitive instances. -/
theorem C1_seal_unseal_roundTrip_witness :
    roundTrip toyPrims "my-secret" ivZero [("tag", JVal.str "x")] = some [("tag", JVal.str "x")] ∧
      roundTripIter toyPrims "my-secret" ivZero 3 [("tag", JVal.str "x")]
        = some [("tag", JVal.str "x")] := by
  have h := C1_seal_unseal_roundTrip toyPrims "my-secret" [("tag", JVal.str "x")] ivZero
    (by decide) (by decide) (by decide) (by decide) (by decide)
  exact ⟨h.1, h.2 3⟩

/-- C8: sealing the same mapping under two distinct fresh nonces yields two
different sealed strings, and each of them unseals to exactly the original
mapping. -/
theorem C8_nonce_freshness (P : Prims) (secret : String) (M : Obj)
    (iv1 iv2 : List Byte)
    (hne : iv1 ≠ iv2) (hiv1 : iv1.length = 16) (hiv2 : iv2.length = 16)
    (hctne1 : (P.gcmEnc (keyToBuffer P secret) iv1 (P.jsonStr M)).1 ≠ [])
    (htag1 : (P.gcmEnc (keyToBuffer P secret) iv1 (P.jsonStr M)).2.length = 16)
    (hgcm1 : P.gcmDec (keyToBuffer P secret) iv1
        (P.gcmEnc (keyToBuffer P secret) iv1 (P.jsonStr M)).1
        (P.gcmEnc (keyToBuffer P secret) iv1 (P.jsonStr M)).2 = some (P.jsonStr M))
    (hctne2 : (P.gcmEnc (keyToBuffer P secret) iv2 (P.jsonStr M)).1 ≠ [])
    (htag2 : (P.gcmEnc (keyToBuffer P secret) iv2 (P.jsonStr M)).2.length = 16)
    (hgcm2 : P.gcmDec (keyToBuffer P secret) iv2
        (P.gcmEnc (keyToBuffer P secret) iv2 (P.jsonStr M)).1
        (P.gcmEnc (keyToBuffer P secret) iv2 (P.jsonStr M)).2 = some (P.jsonStr M))
    (hjson : P.jsonParse (P.jsonStr M) = some M) :
    encrypt P secret M iv1 ≠ encrypt P secret M iv2 ∧
      decrypt P secret (encrypt P secret M iv1) = some M ∧
      decrypt P secret (encrypt P secret M iv2) = some M := by
  refine ⟨?_, decrypt_encrypt P secret M iv1 hiv1 hctne1 htag1 hgcm1 hjson,
    decrypt_encrypt P secret M iv2 hiv2 hctne2 htag2 hgcm2 hjson⟩
  intro heq
  apply hne
  have h1 : (encrypt P secret M iv1).take 32 = hexEncode iv1 := by
    rw [show encrypt P secret M iv1
        = hexEncode iv1 ++ (hexEncode (P.gcmEnc (keyToBuffer P secret) iv1 (P.jsonStr M)).1
          ++ hexEncode (P.gcmEnc (keyToBuffer P secret) iv1 (P.jsonStr M)).2) by
        simp [encrypt]]
    exact take_append_left _ _ _ (by rw [hexEncode_length, hiv1])
  have h2 : (encrypt P secret M iv2).take 32 = hexEncode iv2 := by
    rw [show encrypt P secret M iv2
        = hexEncode iv2 ++ (hexEncode (P.gcmEnc (keyToBuffer P secret) iv2 (P.jsonStr M)).1
          ++ hexEncode (P.gcmEnc (keyToBuffer P secret) iv2 (P.jsonStr M)).2) by
        simp [encrypt]]
    exact take_append_left _ _ _ (by rw [hexEncode_length, hiv2])
  apply hexEncode_injective
  rw [← h1, ← h2, heq]

/-- Witness for C8 at a concrete secret, mapping and pair of nonces. -/
theorem C8_nonce_freshness_witness :
    encrypt toyPrims "my-secret" [("tag", JVal.str "x")] ivZero
        ≠ encrypt toyPrims "my-secret" [("tag", JVal.str "x")] ivOne ∧
      decrypt toyPrims "my-secret"
          (encrypt toyPrims "my-secret" [("tag", JVal.str "x")] ivZero)
        = some [("tag", JVal.str "x")] ∧
      decrypt toyPrims "my-secret"
          (encrypt toyPrims "my-secret" [("tag", JVal.str "x")] ivOne)
        = some [("tag", JVal.str "x")] :=
  C8_nonce_freshness toyPrims "my-secret" [("tag", JVal.str "x")] ivZero ivOne
    (by decide) (by decide) (by decide) (by decide) (by decide) (by decide)
    (by decide) (by decide) (by decide) (by decide)

/-- Ciphertext component of an honest seal. -/
def sealedCt (P : Prims) (S : String) (M : Obj) (iv : List Byte) : List Byte :=
  (P.gcmEnc (keyToBuffer P S) iv (P.jsonStr M)).1

/-- Authentication-tag component of an honest seal. -/
def sealedTag (P : Prims) (S : String) (M : Obj) (iv : List Byte) : List Byte :=
  (P.gcmEnc (keyToBuffer P S) iv (P.jsonStr M)).2

/-- C2 (amended): `decrypt` returns the single failure value `false` (`none`)
whenever (a) the input is shorter than the minimum valid length of 66
characters, (b) the input parses to a nonce/ciphertext/tag triple different
from the honestly produced one — which covers every single-byte flip that
changes the decoded bytes and all appended or truncated inputs — or (c) the
input is unsealed under a different secret whose derived key verifies no
triple.  (The claim as literally stated is refuted by
`C2_single_byte_flip_counterexample`: a byte flip between the two hex cases
leaves the decoded triple unchanged and is accepted.)  The hypotheses state
ideal authenticity of the AES-256-GCM primitive: under the first derived key
only the honest triple verifies, and under the second derived key nothing
verifies. -/
theorem C2_tamper_rejection (P : Prims) (S S2 : String) (M : Obj) (iv : List Byte)
    (Hideal : ∀ i c t, (i, c, t) ≠ (iv, sealedCt P S M iv, sealedTag P S M iv) →
      P.gcmDec (keyToBuffer P S) i c t = none)
    (Hk2 : ∀ i c t, P.gcmDec (keyToBuffer P S2) i c t = none) :
    (∀ c : List Char, c.length < 66 → decrypt P S c = none) ∧
    (∀ c : List Char,
      parsedTriple c ≠ (iv, sealedCt P S M iv, sealedTag P S M iv) →
        decrypt P S c = none) ∧
    decrypt P S2 (encrypt P S M iv) = none := by
  have h66 : (ivLength + gcmTagLength) * 2 + 2 = 66 := rfl
  have hshort : ∀ c : List Char, c.length < 66 → decrypt P S c = none := by
    intro c hc
    simp only [decrypt]
    rw [if_pos (by rw [h66]; exact hc)]
  refine ⟨hshort, ?_, ?_⟩
  · intro c hc
    by_cases hlen : c.length < (ivLength + gcmTagLength) * 2 + 2
    · exact hshort c (by rw [← h66]; exact hlen)
    · rw [decrypt_eq_parsedTriple P S c hlen]
      split
      · rfl
      · rw [Hideal (parsedTriple c).1 (parsedTriple c).2.1 (parsedTriple c).2.2 hc]
  · by_cases hlen : (encrypt P S M iv).length < (ivLength + gcmTagLength) * 2 + 2
    · simp only [decrypt]
      rw [if_pos hlen]
    · rw [decrypt_eq_parsedTriple P S2 _ hlen]
      split
      · rfl
      · rw [Hk2 _ _ _]

/-! Concrete "strict" instance of the primitives for the C2 witness and
counterexample: the cipher is an identity cipher whose decryption recognizes
exactly one honest (key, nonce, ciphertext, tag) quadruple, which satisfies
the ideal-authenticity hypotheses at that point. -/

def strictKey : List Byte := bytesOfString "s"

def strictPt : List Byte := toyJsonStr [("a", JVal.str "b")]

def strictGcmDec (key iv ct tag : List Byte) : Option (List Byte) :=
  if key = strictKey ∧ iv = ivZero ∧ ct = strictPt ∧ tag = toyTag
  then some strictPt else none

def strictPrims : Prims :=
  ⟨fun bs => bs, bytesOfString, toyJsonStr, toyJsonParse, toyGcmEnc, strictGcmDec⟩

theorem strictGcmDec_ideal :
    ∀ i c t, (i, c, t) ≠ (ivZero, sealedCt strictPrims "s" [("a", JVal.str "b")] ivZero,
        sealedTag strictPrims "s" [("a", JVal.str "b")] ivZero) →
      strictPrims.gcmDec (keyToBuffer strictPrims "s") i c t = none := by
  intro i c t hne
  show strictGcmDec strictKey i c t = none
  unfold strictGcmDec
  rw [if_neg]
  intro h
  exact hne (by rw [h.2.1, h.2.2.1, h.2.2.2]; rfl)

theorem strictGcmDec_wrongKey :
    ∀ i c t, strictPrims.gcmDec (keyToBuffer strictPrims "t") i c t = none := by
  intro i c t
  show strictGcmDec (bytesOfString "t") i c t = none
  unfold strictGcmDec
  rw [if_neg]
  intro h
  exact absurd h.1 (by decide)

/-- Witness for C2 (amended): with the strict cipher instance, a too-short
input, an input with two appended characters (whose parsed triple differs
from the honest one), and unsealing under the wrong secret all return the
single failure value. -/
theorem C2_tamper_rejection_witness :
    decrypt strictPrims "s" [] = none ∧
    decrypt strictPrims "s"
        (encrypt strictPrims "s" [("a", JVal.str "b")] ivZero ++ ['0', '0']) = none ∧
    decrypt strictPrims "t" (encrypt strictPrims "s" [("a", JVal.str "b")] ivZero) = none := by
  have h := C2_tamper_rejection strictPrims "s" "t" [("a", JVal.str "b")] ivZero
    strictGcmDec_ideal strictGcmDec_wrongKey
  exact ⟨h.1 [] (by decide), h.2.1 _ (by decide), h.2.2⟩

/-- C2 counterexample to the claim as stated: the sealed value ends in the
hex character 'a'; flipping that byte to 'A' yields a different string that
still unseals successfully (node hex decoding is case-insensitive), so it is
not true that flipping any single byte of the sealed value makes unsealing
fail. -/
theorem C2_single_byte_flip_counterexample :
    (encrypt strictPrims "s" [("a", JVal.str "b")] ivZero).getLast? = some 'a' ∧
    (encrypt strictPrims "s" [("a", JVal.str "b")] ivZero).dropLast ++ ['A']
        ≠ encrypt strictPrims "s" [("a", JVal.str "b")] ivZero ∧
    decrypt strictPrims "s"
        ((encrypt strictPrims "s" [("a", JVal.str "b")] ivZero).dropLast ++ ['A'])
      = some [("a", JVal.str "b")] := by
  exact ⟨by decide, by decide, by decide⟩

/-! ### Authorization-URL builder (src/utils.ts buildAuthorizationUrl) -/

/-- A parsed URL: base (scheme/host/path) plus its query parameters in order.
The repository's authorization endpoints carry no query string, so
`new URL(endpoint)` starts with an empty parameter list. -/
structure Url where
  base : String
  params : List (String × String)
deriving DecidableEq, Repr

/-- `url.searchParams.get(k)`: value of the first parameter named k. -/
def urlGet (u : Url) (k : String) : Option String :=
  (u.params.find? (fun p => p.1 == k)).map (fun p => p.2)

/-- `URLSearchParams.set(k, v)`: replaces the first parameter named k (and
removes any further ones), or appends if absent. -/
def setParam : List (String × String) → String → String → List (String × String)
  | [], k, v => [(k, v)]
  | p :: rest, k, v =>
    if p.1 = k then (k, v) :: rest.filter (fun q => q.1 != k)
    else p :: setParam rest k v

def urlSet (u : Url) (k v : String) : Url := ⟨u.base, setParam u.params k v⟩

/-- The base64url alphabet (RFC 4648 §5). -/
def b64Char (n : Nat) : Char :=
  (['A', 'B', 'C', 'D', 'E', 'F', 'G', 'H', 'I', 'J', 'K', 'L', 'M',
    'N', 'O', 'P', 'Q', 'R', 'S', 'T', 'U', 'V', 'W', 'X', 'Y', 'Z',
    'a', 'b', 'c', 'd', 'e', 'f', 'g', 'h', 'i', 'j', 'k', 'l', 'm',
    'n', 'o', 'p', 'q', 'r', 's', 't', 'u', 'v', 'w', 'x', 'y', 'z',
    '0', '1', '2', '3', '4', '5', '6', '7', '8', '9', '-', '_'].getD n 'A')

/-- Unpadded base64url encoding of a byte sequence. -/
def base64UrlEncode : List Byte → List Char
  | [] => []
  | [b1] => [b64Char (b1.val / 4), b64Char (b1.val % 4 * 16)]
  | [b1, b2] =>
    [b64Char (b1.val / 4), b64Char (b1.val % 4 * 16 + b2.val / 16),
     b64Char (b2.val % 16 * 4)]
  | b1 :: b2 :: b3 :: rest =>
    b64Char (b1.val / 4) :: b64Char (b1.val % 4 * 16 + b2.val / 16)
      :: b64Char (b2.val % 16 * 4 + b3.val / 64) :: b64Char (b3.val % 64)
      :: base64UrlEncode rest

/-- `oauth.calculatePKCECodeChallenge`: base64url(SHA-256(utf8(verifier))),
the fixed S256 encoding (the SHA-256 digest itself is the external `sha256`
parameter). -/
def pkceChallenge (sha256 : List Byte → List Byte) (utf8 : String → List Byte)
    (verifier : String) : String :=
  String.mk (base64UrlEncode (sha256 (utf8 verifier)))

/-- The loop over `Object.entries(extraParams)` applying `searchParams.set`. -/
def applyExtras (u : Url) (extras : List (String × String)) : Url :=
  extras.foldl (fun acc p => urlSet acc p.1 p.2) u

/-- `buildAuthorizationUrl` from src/utils.ts: sets the seven standard
OAuth2/PKCE query parameters, then applies the provider-specific extra
parameters afterwards. -/
def buildAuthorizationUrl (sha256 : List Byte → List Byte) (utf8 : String → List Byte)
    (authorizationEndpoint clientId redirectUri : String) (scopes : List String)
    (codeVerifier state : String) (extraParams : List (String × String)) : Url :=
  let codeChallenge := pkceChallenge sha256 utf8 codeVerifier
  let u0 : Url := ⟨authorizationEndpoint, []⟩
  let u1 := urlSet u0 "client_id" clientId
  let u2 := urlSet u1 "redirect_uri" redirectUri
  let u3 := urlSet u2 "response_type" "code"
  let u4 := urlSet u3 "scope" (String.intercalate " " scopes)
  let u5 := urlSet u4 "code_challenge" codeChallenge
  let u6 := urlSet u5 "code_challenge_method" "S256"
  let u7 := urlSet u6 "state" state
  applyExtras u7 extraParams

/-- The seven standard query parameters set by the builder. -/
def stdKeys : List String :=
  ["client_id", "redirect_uri", "response_type", "scope",
   "code_challenge", "code_challenge_method", "state"]

/-- Last-occurrence lookup, matching repeated `searchParams.set` calls where
the last set wins. -/
def lastLookup (ps : List (String × String)) (k : String) : Option String :=
  (ps.reverse.find? (fun p => p.1 == k)).map (fun p => p.2)

/-- First-match lookup in a parameter list. -/
def pLookup (ps : List (String × String)) (k : String) : Option String :=
  (ps.find? (fun p => p.1 == k)).map (fun p => p.2)

theorem urlGet_eq_pLookup (u : Url) (k : String) : urlGet u k = pLookup u.params k := rfl


theorem pLookup_nil (k : String) : pLookup [] k = none := rfl

theorem pLookup_cons (p : String × String) (ps : List (String × String)) (k : String) :
    pLookup (p :: ps) k = if p.1 = k then some p.2 else pLookup ps k := by
  by_cases h : p.1 = k
  · simp [pLookup, List.find?, h]
  · have hb : (p.1 == k) = false := beq_eq_false_iff_ne.mpr h
    simp [pLookup, List.find?, hb, h]

theorem pLookup_filter_ne (ps : List (String × String)) (k k' : String) (h : k' ≠ k) :
    pLookup (ps.filter (fun q => q.1 != k)) k' = pLookup ps k' := by
  induction ps with
  | nil => rfl
  | cons q rest ih =>
    by_cases hq : q.1 = k
    · rw [List.filter_cons_of_neg (by simp [hq]), ih, pLookup_cons,
        if_neg (fun hc : q.1 = k' => h (hc ▸ hq))]
    · rw [List.filter_cons_of_pos (by simp [hq]), pLookup_cons, pLookup_cons, ih]

theorem pLookup_setParam_self (ps : List (String × String)) (k v : String) :
    pLookup (setParam ps k v) k = some v := by
  induction ps with
  | nil => simp [setParam, pLookup_cons]
  | cons p rest ih =>
    by_cases h : p.1 = k
    · simp [setParam, h, pLookup_cons]
    · simp only [setParam, if_neg h]
      rw [pLookup_cons, if_neg h, ih]

theorem pLookup_setParam_other (ps : List (String × String)) (k v k' : String)
    (h : k' ≠ k) :
    pLookup (setParam ps k v) k' = pLookup ps k' := by
  induction ps with
  | nil =>
    show pLookup [(k, v)] k' = none
    rw [pLookup_cons, if_neg (fun hc => h hc.symm)]
    rfl
  | cons p rest ih =>
    by_cases hp : p.1 = k
    · simp only [setParam, if_pos hp]
      rw [pLookup_cons, if_neg (fun hc : k = k' => h hc.symm),
        pLookup_cons, if_neg (fun hc : p.1 = k' => h (hc ▸ hp))]
      exact pLookup_filter_ne rest k k' h
    · simp only [setParam, if_neg hp]
      rw [pLookup_cons, pLookup_cons, ih]

/-- The key list of a parameter list. -/
def pKeys (ps : List (String × String)) : List String := ps.map Prod.fst

theorem pKeys_filter (rest : List (String × String)) (k k' : String) :
    k' ∈ pKeys (rest.filter (fun q => q.1 != k)) ↔ k' ∈ pKeys rest ∧ k' ≠ k := by
  simp only [pKeys, List.mem_map, List.mem_filter, bne_iff_ne]
  constructor
  · rintro ⟨a, ⟨ha, hne⟩, hak⟩
    exact ⟨⟨a, ha, hak⟩, hak ▸ hne⟩
  · rintro ⟨⟨a, ha, hak⟩, hne⟩
    exact ⟨a, ⟨ha, hak.symm ▸ hne⟩, hak⟩

theorem pKeys_setParam (ps : List (String × String)) (k v k' : String) :
    k' ∈ pKeys (setParam ps k v) ↔ k' = k ∨ k' ∈ pKeys ps := by
  induction ps with
  | nil => simp [setParam, pKeys]
  | cons p rest ih =>
    by_cases hp : p.1 = k
    · simp only [setParam, if_pos hp]
      subst hp
      rw [show pKeys ((p.1, v) :: List.filter (fun q => q.1 != p.1) rest)
          = p.1 :: pKeys (List.filter (fun q => q.1 != p.1) rest) from rfl]
      rw [show pKeys (p :: rest) = p.1 :: pKeys rest from rfl]
      simp only [List.mem_cons, pKeys_filter]
      tauto
    · simp only [setParam, if_neg hp]
      rw [show pKeys (p :: setParam rest k v) = p.1 :: pKeys (setParam rest k v) from rfl]
      rw [show pKeys (p :: rest) = p.1 :: pKeys rest from rfl]
      simp only [List.mem_cons, ih]
      tauto

theorem applyExtras_cons (u : Url) (e : String × String) (rest : List (String × String)) :
    applyExtras u (e :: rest) = applyExtras (urlSet u e.1 e.2) rest := rfl

theorem applyExtras_base (u : Url) (extras : List (String × String)) :
    (applyExtras u extras).base = u.base := by
  induction extras generalizing u with
  | nil => rfl
  | cons e rest ih => rw [applyExtras_cons, ih]; rfl

theorem urlGet_applyExtras_notMem (u : Url) (extras : List (String × String))
    (k : String) (h : ∀ p ∈ extras, p.1 ≠ k) :
    urlGet (applyExtras u extras) k = urlGet u k := by
  induction extras generalizing u with
  | nil => rfl
  | cons e rest ih =>
    rw [applyExtras_cons, ih _ (fun p hp => h p (List.mem_cons_of_mem e hp)),
      urlGet_eq_pLookup, urlGet_eq_pLookup]
    exact pLookup_setParam_other u.params e.1 e.2 k
      (fun hc => (h e (List.mem_cons_self e rest)) hc.symm)

theorem urlGet_applyExtras_last (u : Url) (extras : List (String × String))
    (k v : String) (h : lastLookup extras k = some v) :
    urlGet (applyExtras u extras) k = some v := by
  induction extras using List.reverseRecOn generalizing u with
  | nil => simp [lastLookup] at h
  | append_singleton es e ih =>
    have happ : applyExtras u (es ++ [e]) = urlSet (applyExtras u es) e.1 e.2 := by
      simp [applyExtras, List.foldl_append]
    rw [happ]
    by_cases he : e.1 = k
    · have hb : (e.1 == k) = true := beq_iff_eq.mpr he
      have hlast : lastLookup (es ++ [e]) k = some e.2 := by
        simp [lastLookup, List.reverse_append, List.find?, hb]
      rw [hlast] at h
      have hv : e.2 = v := by injection h
      rw [urlGet_eq_pLookup]
      show pLookup (setParam (applyExtras u es).params e.1 e.2) k = some v
      rw [← he, pLookup_setParam_self, hv]
    · have hb : (e.1 == k) = false := beq_eq_false_iff_ne.mpr he
      have hlast : lastLookup (es ++ [e]) k = lastLookup es k := by
        simp [lastLookup, List.reverse_append, List.find?, hb]
      rw [hlast] at h
      rw [urlGet_eq_pLookup]
      show pLookup (setParam (applyExtras u es).params e.1 e.2) k = some v
      rw [pLookup_setParam_other _ _ _ _ (fun hc => he hc.symm)]
      exact ih u h

theorem pKeys_applyExtras (u : Url) (extras : List (String × String)) (k : String) :
    k ∈ pKeys (applyExtras u extras).params ↔
      k ∈ pKeys u.params ∨ k ∈ pKeys extras := by
  induction extras generalizing u with
  | nil => simp [applyExtras, pKeys]
  | cons e rest ih =>
    rw [applyExtras_cons, ih]
    rw [show (urlSet u e.1 e.2).params = setParam u.params e.1 e.2 from rfl, pKeys_setParam]
    rw [show pKeys (e :: rest) = e.1 :: pKeys rest from rfl]
    simp only [List.mem_cons]
    tauto

/-- Helper: when the extra parameters leave the standard keys alone, each of
the seven standard query parameters has its expected value. -/
theorem buildAuthorizationUrl_std_lookups (sha256 : List Byte → List Byte)
    (utf8 : String → List Byte) (ep cid ruri : String) (scopes : List String)
    (cv st : String) (extras : List (String × String))
    (hext : ∀ p ∈ extras, p.1 ∉ stdKeys) :
    urlGet (buildAuthorizationUrl sha256 utf8 ep cid ruri scopes cv st extras)
        "client_id" = some cid ∧
    urlGet (buildAuthorizationUrl sha256 utf8 ep cid ruri scopes cv st extras)
        "redirect_uri" = some ruri ∧
    urlGet (buildAuthorizationUrl sha256 utf8 ep cid ruri scopes cv st extras)
        "response_type" = some "code" ∧
    urlGet (buildAuthorizationUrl sha256 utf8 ep cid ruri scopes cv st extras)
        "scope" = some (String.intercalate " " scopes) ∧
    urlGet (buildAuthorizationUrl sha256 utf8 ep cid ruri scopes cv st extras)
        "code_challenge" = some (pkceChallenge sha256 utf8 cv) ∧
    urlGet (buildAuthorizationUrl sha256 utf8 ep cid ruri scopes cv st extras)
        "code_challenge_method" = some "S256" ∧
    urlGet (buildAuthorizationUrl sha256 utf8 ep cid ruri scopes cv st extras)
        "state" = some st := by
  have hb : buildAuthorizationUrl sha256 utf8 ep cid ruri scopes cv st extras
      = applyExtras
          ⟨ep, [("client_id", cid), ("redirect_uri", ruri), ("response_type", "code"),
                ("scope", String.intercalate " " scopes),
                ("code_challenge", pkceChallenge sha256 utf8 cv),
                ("code_challenge_method", "S256"), ("state", st)]⟩ extras := rfl
  have hstep : ∀ k, k ∈ stdKeys →
      urlGet (buildAuthorizationUrl sha256 utf8 ep cid ruri scopes cv st extras) k
        = urlGet ⟨ep, [("client_id", cid), ("redirect_uri", ruri), ("response_type", "code"),
            ("scope", String.intercalate " " scopes),
            ("code_challenge", pkceChallenge sha256 utf8 cv),
            ("code_challenge_method", "S256"), ("state", st)]⟩ k := by
    intro k hk
    rw [hb]
    exact urlGet_applyExtras_notMem _ extras k
      (fun p hp hc => hext p hp (hc ▸ hk))
  refine ⟨?_, ?_, ?_, ?_, ?_, ?_, ?_⟩
  · rw [hstep _ (by decide)]; rfl
  · rw [hstep _ (by decide)]; rfl
  · rw [hstep _ (by decide)]; rfl
  · rw [hstep _ (by decide)]; rfl
  · rw [hstep _ (by decide)]; rfl
  · rw [hstep _ (by decide)]; rfl
  · rw [hstep _ (by decide)]; rfl

/-- C7: the authorization-URL builder is a pure deterministic function whose
result's query parameters are exactly the seven standard OAuth2/PKCE
parameters — client_id, redirect_uri, response_type=code, the space-joined
scope list, the S256 code challenge of the verifier, code_challenge_method
and the state echoed verbatim — with the extra parameters applied afterwards,
so a (last occurrence of an) extra parameter always wins, including over a
standard parameter. -/
theorem C7_buildAuthorizationUrl (sha256 : List Byte → List Byte)
    (utf8 : String → List Byte) (ep cid ruri : String) (scopes : List String)
    (cv st : String) (extras : List (String × String)) :
    (buildAuthorizationUrl sha256 utf8 ep cid ruri scopes cv st extras).base = ep ∧
    (∀ k v, lastLookup extras k = some v →
      urlGet (buildAuthorizationUrl sha256 utf8 ep cid ruri scopes cv st extras) k
        = some v) ∧
    (∀ k, k ∈ pKeys (buildAuthorizationUrl sha256 utf8 ep cid ruri scopes cv st extras).params
        ↔ k ∈ stdKeys ∨ k ∈ pKeys extras) ∧
    ((∀ p ∈ extras, p.1 ∉ stdKeys) →
      urlGet (buildAuthorizationUrl sha256 utf8 ep cid ruri scopes cv st extras)
          "client_id" = some cid ∧
      urlGet (buildAuthorizationUrl sha256 utf8 ep cid ruri scopes cv st extras)
          "redirect_uri" = some ruri ∧
      urlGet (buildAuthorizationUrl sha256 utf8 ep cid ruri scopes cv st extras)
          "response_type" = some "code" ∧
      urlGet (buildAuthorizationUrl sha256 utf8 ep cid ruri scopes cv st extras)
          "scope" = some (String.intercalate " " scopes) ∧
      urlGet (buildAuthorizationUrl sha256 utf8 ep cid ruri scopes cv st extras)
          "code_challenge" = some (pkceChallenge sha256 utf8 cv) ∧
      urlGet (buildAuthorizationUrl sha256 utf8 ep cid ruri scopes cv st extras)
          "code_challenge_method" = some "S256" ∧
      urlGet (buildAuthorizationUrl sha256 utf8 ep cid ruri scopes cv st extras)
          "state" = some st) := by
  have hb : buildAuthorizationUrl sha256 utf8 ep cid ruri scopes cv st extras
      = applyExtras
          ⟨ep, [("client_id", cid), ("redirect_uri", ruri), ("response_type", "code"),
                ("scope", String.intercalate " " scopes),
                ("code_challenge", pkceChallenge sha256 utf8 cv),
                ("code_challenge_method", "S256"), ("state", st)]⟩ extras := rfl
  refine ⟨?_, ?_, ?_, ?_⟩
  · rw [hb, applyExtras_base]
  · intro k v h
    rw [hb]
    exact urlGet_applyExtras_last _ extras k v h
  · intro k
    rw [hb, pKeys_applyExtras]
    rw [show (⟨ep, [("client_id", cid), ("redirect_uri", ruri), ("response_type", "code"),
        ("scope", String.intercalate " " scopes),
        ("code_challenge", pkceChallenge sha256 utf8 cv),
        ("code_challenge_method", "S256"), ("state", st)]⟩ : Url).params
      = [("client_id", cid), ("redirect_uri", ruri), ("response_type", "code"),
        ("scope", String.intercalate " " scopes),
        ("code_challenge", pkceChallenge sha256 utf8 cv),
        ("code_challenge_method", "S256"), ("state", st)] from rfl]
    rw [show pKeys [("client_id", cid), ("redirect_uri", ruri), ("response_type", "code"),
        ("scope", String.intercalate " " scopes),
        ("code_challenge", pkceChallenge sha256 utf8 cv),
        ("code_challenge_method", "S256"), ("state", st)] = stdKeys from rfl]
  · intro hext
    exact buildAuthorizationUrl_std_lookups sha256 utf8 ep cid ruri scopes cv st
      extras hext

/-- Witness for C7 at concrete inputs, including an extra parameter that
overwrites the standard prompt-free configuration. -/
theorem C7_buildAuthorizationUrl_witness :
    urlGet (buildAuthorizationUrl toySha bytesOfString "https://p.example/auth"
        "cid" "https://app.example/cb" ["openid", "email"] "verifier" "st123"
        [("prompt", "consent")]) "client_id" = some "cid" ∧
    urlGet (buildAuthorizationUrl toySha bytesOfString "https://p.example/auth"
        "cid" "https://app.example/cb" ["openid", "email"] "verifier" "st123"
        [("prompt", "consent")]) "state" = some "st123" ∧
    urlGet (buildAuthorizationUrl toySha bytesOfString "https://p.example/auth"
        "cid" "https://app.example/cb" ["openid", "email"] "verifier" "st123"
        [("prompt", "consent")]) "prompt" = some "consent" ∧
    urlGet (buildAuthorizationUrl toySha bytesOfString "https://p.example/auth"
        "cid" "https://app.example/cb" ["openid", "email"] "verifier" "st123"
        [("prompt", "consent")]) "scope" = some "openid email" := by
  have h := C7_buildAuthorizationUrl toySha bytesOfString "https://p.example/auth"
    "cid" "https://app.example/cb" ["openid", "email"] "verifier" "st123"
    [("prompt", "consent")]
  have hseven := h.2.2.2 (by decide)
  exact ⟨hseven.1, hseven.2.2.2.2.2.2, h.2.1 "prompt" "consent" (by decide),
    by rw [hseven.2.2.2.1]; rfl⟩

/-! ### Errors (src/error.ts), providers (src/provider.ts) and the
orchestrator (src/authingy.ts, defineAuthingyConfig) -/

/-- The structured details payload some AuthingyError sites attach. -/
structure ErrDetails where
  status : Nat
  statusText : String
  body : Option String
deriving DecidableEq, Repr

/-- `AuthingyError(code, message?, details?)`.  The orchestrator calls the
constructor with a single argument, so there the code field carries the plain
message string and message/details are absent. -/
structure AuthErr where
  code : String
  message : Option String
  details : Option ErrDetails
deriving DecidableEq, Repr

/-- `oauth.TokenEndpointResponse`, reduced to the field the core reads. -/
structure Token where
  access_token : String
deriving DecidableEq, Repr

/-- `OAuthProvider` from src/provider.ts: the three capabilities.  Fields
`authorization`, `callbackFn`, `userFn` embed `_authorization(options)`,
`_callback(options)` and `_user(options)`. -/
structure OAuthProvider where
  id : String
  authorization : String → String → Except AuthErr Url
  callbackFn : Url → String → String → Except AuthErr Token
  userFn : Token → Except AuthErr Obj

/-- Keys of a JS object. -/
def objKeys (m : Obj) : List String := m.map Prod.fst

/-- First-match lookup on a JS object (objects never repeat a key). -/
def objLookup (m : Obj) (k : String) : Option JVal :=
  (m.find? (fun p => p.1 == k)).map (fun p => p.2)

/-- JS property assignment `obj[k] = v`: updates the value in place if the
key exists, appends otherwise. -/
def objAssign (m : Obj) (k : String) (v : JVal) : Obj :=
  if m.any (fun p => p.1 == k) then m.map (fun p => if p.1 = k then (p.1, v) else p)
  else m ++ [(k, v)]

/-- Object spread: assign every property of `data` onto `base` in order. -/
def objSpread (base : Obj) (data : Obj) : Obj :=
  data.foldl (fun acc p => objAssign acc p.1 p.2) base

/-- The object literal `{ state, ...data }` built by `authorize`: a caller
key named "state" silently overwrites the freshly generated CSRF state. -/
def stateWithData (st : String) (data : Obj) : Obj :=
  objSpread [("state", JVal.str st)] data

/-- Rest destructuring `const { state, ...data } = decryptedState`. -/
def objErase (m : Obj) (k : String) : Obj := m.filter (fun p => p.1 != k)

/-- The error thrown by the orchestrator on any sealed-state failure
(`new AuthingyError('Invalid state')`, single-argument call). -/
def invalidStateErr : AuthErr := ⟨"Invalid state", none, none⟩

/-- The error thrown when the provider id is not registered. -/
def providerNotFoundErr (id : String) : AuthErr :=
  ⟨"Provider \"" ++ id ++ "\" not found", none, none⟩

/-- The provider registry: a Map filled with `set` in registration order, so
for a duplicated id the last registration wins. -/
def providerFind (providers : List OAuthProvider) (id : String) : Option OAuthProvider :=
  providers.foldl (fun acc p => if p.id = id then some p else acc) none

/-- `authorize(id, data)` from defineAuthingyConfig.  The freshly generated
random CSRF state `st` (`oauth.generateRandomState()`), code verifier `cv`
(`oauth.generateRandomCodeVerifier()`) and encryption nonce `iv` are passed
as explicit arguments. -/
structure AuthorizeResult where
  url : Url
  state : List Char
  codeVerifier : String
deriving DecidableEq, Repr

structure CallbackResult where
  user : Obj
  token : Token
  data : Obj
deriving DecidableEq, Repr

def authorize (P : Prims) (secret : String) (providers : List OAuthProvider)
    (id : String) (data : Obj) (st cv : String) (iv : List Byte) :
    Except AuthErr AuthorizeResult :=
  match providerFind providers id with
  | none => .error (providerNotFoundErr id)
  | some prov =>
    let encryptedWithState := encrypt P secret (stateWithData st data) iv
    match prov.authorization st cv with
    | .error e => .error e
    | .ok url => .ok ⟨url, encryptedWithState, cv⟩

/-- Body of `callback(id, options)` after provider resolution: unseal, check
for a string `state` member, delegate to the provider's `_callback` with the
unsealed inner CSRF value, fetch the user, and return the unsealed mapping
with the `state` key removed. -/
def callbackCore (P : Prims) (secret : String) (prov : OAuthProvider)
    (url : Url) (cv : String) (encryptedWithState : List Char) :
    Except AuthErr CallbackResult :=
  match decrypt P secret encryptedWithState with
  | none => .error invalidStateErr
  | some decryptedState =>
    match objLookup decryptedState "state" with
    | some (JVal.str st) =>
      match prov.callbackFn url cv st with
      | .error e => .error e
      | .ok token =>
        match prov.userFn token with
        | .error e => .error e
        | .ok user => .ok ⟨user, token, objErase decryptedState "state"⟩
    | _ => .error invalidStateErr

def callback (P : Prims) (secret : String) (providers : List OAuthProvider)
    (id : String) (url : Url) (cv : String) (encryptedWithState : List Char) :
    Except AuthErr CallbackResult :=
  match providerFind providers id with
  | none => .error (providerNotFoundErr id)
  | some prov => callbackCore P secret prov url cv encryptedWithState

/-! ### X (Twitter) provider (src/providers/x.ts) -/

/-- An HTTP response as the provider code consumes it. -/
structure HttpResp where
  ok : Bool
  status : Nat
  statusText : String
  body : String
deriving DecidableEq, Repr

/-- The error for a callback URL without an authorization code
(`!code`, which is also true for an empty string). -/
def xMissingCodeErr : AuthErr :=
  ⟨"TOKEN_EXCHANGE_FAILED", some "Missing authorization code in callback", none⟩

/-- The error the x provider throws on a state mismatch. -/
def xStateMismatchErr : AuthErr :=
  ⟨"INVALID_STATE", some "State mismatch in callback", none⟩

/-- `x(config)` from src/providers/x.ts.  The HTTP fetches and JSON response
parsing are external; they are the `tokenFetch`/`parseToken`/`userFetch`/
`parseUser` parameters.  `tokenFetch` receives the HTTP Basic credential pair
(whose base64 encoding happens in the external fetch layer) and the
form-encoded body.  Endpoints are hardcoded; the scope list is the three
defaults followed by the provided scopes. -/
def xProvider (clientId clientSecret redirectUri : String)
    (providedScopes : List String)
    (sha256 : List Byte → List Byte) (utf8 : String → List Byte)
    (tokenFetch : String → List (String × String) → HttpResp)
    (parseToken : String → Token)
    (userFetch : String → HttpResp)
    (parseUser : String → Obj) : OAuthProvider :=
  let authorizationEndpoint := "https://x.com/i/oauth2/authorize"
  let scopes := ["users.read", "tweet.read", "offline.access"] ++ providedScopes
  { id := "x"
    authorization := fun st cv =>
      if cv = "" then
        .error ⟨"MISSING_CODE_VERIFIER", some "Code verifier is required", none⟩
      else
        .ok (buildAuthorizationUrl sha256 utf8 authorizationEndpoint clientId
          redirectUri scopes cv st [])
    callbackFn := fun url cv st =>
      match urlGet url "code" with
      | none => .error xMissingCodeErr
      | some c =>
        if c = "" then .error xMissingCodeErr
        else if urlGet url "state" ≠ some st then .error xStateMismatchErr
        else
          let resp := tokenFetch (clientId ++ ":" ++ clientSecret)
            [("grant_type", "authorization_code"), ("code", c),
             ("redirect_uri", redirectUri), ("code_verifier", cv)]
          if resp.ok then .ok (parseToken resp.body)
          else
            .error ⟨"TOKEN_EXCHANGE_FAILED",
              some "Failed to exchange authorization code for tokens",
              some ⟨resp.status, resp.statusText, some resp.body⟩⟩
    userFn := fun token =>
      let resp := userFetch token.access_token
      if resp.ok then .ok (parseUser resp.body)
      else
        .error ⟨"USER_FETCH_FAILED", some "Failed to fetch X user profile",
          some ⟨resp.status, resp.statusText, none⟩⟩ }

/-! ### Object-spread and lookup lemmas -/

theorem objLookup_cons (p : String × JVal) (m : Obj) (k : String) :
    objLookup (p :: m) k = if p.1 = k then some p.2 else objLookup m k := by
  by_cases h : p.1 = k
  · simp [objLookup, List.find?, h]
  · have hb : (p.1 == k) = false := beq_eq_false_iff_ne.mpr h
    simp [objLookup, List.find?, hb, h]

theorem objLookup_not_mem (m : Obj) (k : String) (h : k ∉ objKeys m) :
    objLookup m k = none := by
  induction m with
  | nil => rfl
  | cons p rest ih =>
    rw [objLookup_cons, if_neg (fun hc : p.1 = k => h (hc ▸ List.mem_cons_self p.1 _)),
      ih (fun hc => h (List.mem_cons_of_mem p.1 hc))]

theorem objLookup_append (m1 m2 : Obj) (k : String) :
    objLookup (m1 ++ m2) k =
      match objLookup m1 k with
      | some v => some v
      | none => objLookup m2 k := by
  induction m1 with
  | nil => rfl
  | cons p rest ih =>
    rw [List.cons_append, objLookup_cons, objLookup_cons]
    by_cases hp : p.1 = k
    · rw [if_pos hp, if_pos hp]
    · rw [if_neg hp, if_neg hp, ih]

theorem objAssign_not_mem (m : Obj) (k : String) (v : JVal) (h : k ∉ objKeys m) :
    objAssign m k v = m ++ [(k, v)] := by
  unfold objAssign
  rw [if_neg]
  intro hany
  rw [List.any_eq_true] at hany
  obtain ⟨p, hp, hpk⟩ := hany
  rw [beq_iff_eq] at hpk
  exact h (hpk ▸ List.mem_map.mpr ⟨p, hp, rfl⟩)

theorem objLookup_map_set_self (m : Obj) (k : String) (v : JVal)
    (hany : m.any (fun p => p.1 == k)) :
    objLookup (m.map (fun p => if p.1 = k then (p.1, v) else p)) k = some v := by
  induction m with
  | nil => simp at hany
  | cons p rest ih =>
    by_cases hp : p.1 = k
    · rw [List.map_cons, if_pos hp, objLookup_cons, if_pos hp]
    · rw [List.any_cons] at hany
      have hrest : rest.any (fun q => q.1 == k) := by
        rcases Bool.or_eq_true_iff.mp hany with hh | hh
        · exact absurd (beq_iff_eq.mp hh) hp
        · exact hh
      rw [List.map_cons, if_neg hp, objLookup_cons, if_neg hp, ih hrest]

theorem objLookup_map_set_other (m : Obj) (k : String) (v : JVal) (k' : String)
    (h : k' ≠ k) :
    objLookup (m.map (fun p => if p.1 = k then (p.1, v) else p)) k'
      = objLookup m k' := by
  induction m with
  | nil => rfl
  | cons p rest ih =>
    by_cases hp : p.1 = k
    · have hcond : ¬ p.1 = k' := fun hc => h (hc ▸ hp)
      rw [List.map_cons, if_pos hp, objLookup_cons, objLookup_cons,
        if_neg hcond, if_neg hcond, ih]
    · rw [List.map_cons, if_neg hp, objLookup_cons, objLookup_cons]
      by_cases hpk : p.1 = k'
      · rw [if_pos hpk, if_pos hpk]
      · rw [if_neg hpk, if_neg hpk, ih]

theorem objLookup_assign_self (m : Obj) (k : String) (v : JVal) :
    objLookup (objAssign m k v) k = some v := by
  unfold objAssign
  by_cases hany : m.any (fun p => p.1 == k)
  · rw [if_pos hany]
    exact objLookup_map_set_self m k v hany
  · rw [if_neg hany]
    have hnone : objLookup m k = none := by
      apply objLookup_not_mem
      intro hmem
      apply hany
      rw [List.any_eq_true]
      obtain ⟨p, hp, hpk⟩ := List.mem_map.mp hmem
      exact ⟨p, hp, beq_iff_eq.mpr hpk⟩
    rw [objLookup_append, hnone, objLookup_cons, if_pos rfl]

theorem objLookup_assign_other (m : Obj) (k : String) (v : JVal) (k' : String)
    (h : k' ≠ k) :
    objLookup (objAssign m k v) k' = objLookup m k' := by
  unfold objAssign
  by_cases hany : m.any (fun p => p.1 == k)
  · rw [if_pos hany]
    exact objLookup_map_set_other m k v k' h
  · rw [if_neg hany, objLookup_append]
    cases hm : objLookup m k' with
    | some x => rfl
    | none =>
      rw [objLookup_cons, if_neg (fun hc => h hc.symm)]
      rfl

theorem objSpread_cons (acc : Obj) (p : String × JVal) (rest : Obj) :
    objSpread acc (p :: rest) = objSpread (objAssign acc p.1 p.2) rest := rfl

theorem objKeys_cons (p : String × JVal) (rest : Obj) :
    objKeys (p :: rest) = p.1 :: objKeys rest := rfl

theorem objSpread_append_of_disjoint (data : Obj) :
    ∀ acc : Obj, (∀ p ∈ data, p.1 ∉ objKeys acc) → (objKeys data).Nodup →
      objSpread acc data = acc ++ data := by
  induction data with
  | nil => intro acc _ _; simp [objSpread]
  | cons p rest ih =>
    intro acc h1 h2
    rw [objSpread_cons, objAssign_not_mem acc p.1 p.2 (h1 p (List.mem_cons_self p rest))]
    have hnd := (List.nodup_cons.mp (objKeys_cons p rest ▸ h2))
    have step : objSpread (acc ++ [(p.1, p.2)]) rest = acc ++ [(p.1, p.2)] ++ rest := by
      apply ih
      · intro q hq
        rw [objKeys, List.map_append, List.mem_append]
        rintro (hmem | hmem)
        · exact h1 q (List.mem_cons_of_mem p hq) hmem
        · have hq1 : q.1 = p.1 := by simpa using hmem
          exact hnd.1 (hq1 ▸ List.mem_map.mpr ⟨q, hq, rfl⟩)
      · exact hnd.2
    rw [step, List.append_assoc]
    rfl

theorem stateWithData_of_fresh (st : String) (data : Obj)
    (h : "state" ∉ objKeys data) (h2 : (objKeys data).Nodup) :
    stateWithData st data = ("state", JVal.str st) :: data := by
  unfold stateWithData
  rw [objSpread_append_of_disjoint data [("state", JVal.str st)] ?h1 h2]
  · rfl
  · intro p hp hmem
    have : p.1 = "state" := by simpa [objKeys] using hmem
    exact h (this ▸ List.mem_map.mpr ⟨p, hp, rfl⟩)

theorem objSpread_lookup_notMem (data : Obj) (k : String) (h : k ∉ objKeys data) :
    ∀ acc, objLookup (objSpread acc data) k = objLookup acc k := by
  induction data with
  | nil => intro acc; rfl
  | cons p rest ih =>
    intro acc
    rw [objSpread_cons, ih (fun hc => h (List.mem_cons_of_mem _ hc)),
      objLookup_assign_other _ _ _ _
        (fun hc : k = p.1 => h (hc ▸ List.mem_cons_self p.1 _))]

theorem objLookup_objSpread_first (data : Obj) (k : String) (v : JVal)
    (hnodup : (objKeys data).Nodup) (hv : objLookup data k = some v) :
    ∀ acc, objLookup (objSpread acc data) k = some v := by
  induction data with
  | nil => simp [objLookup, List.find?] at hv
  | cons p rest ih =>
    intro acc
    rw [objLookup_cons] at hv
    have hnd := List.nodup_cons.mp (objKeys_cons p rest ▸ hnodup)
    by_cases hp : p.1 = k
    · rw [if_pos hp] at hv
      rw [objSpread_cons]
      have hrest : k ∉ objKeys rest := hp ▸ hnd.1
      rw [objSpread_lookup_notMem rest k hrest, ← hp, objLookup_assign_self]
      exact hv
    · rw [if_neg hp] at hv
      rw [objSpread_cons]
      exact ih hnd.2 hv _

theorem objLookup_objErase_self (m : Obj) (k : String) :
    objLookup (objErase m k) k = none := by
  induction m with
  | nil => rfl
  | cons p rest ih =>
    by_cases hp : p.1 = k
    · rw [objErase, List.filter_cons_of_neg (by simp [hp])]
      exact ih
    · rw [objErase, List.filter_cons_of_pos (by simp [hp]), objLookup_cons, if_neg hp]
      exact ih

theorem objErase_not_mem (m : Obj) (k : String) (h : k ∉ objKeys m) :
    objErase m k = m := by
  rw [objErase, List.filter_eq_self]
  intro p hp
  rw [bne_iff_ne]
  intro hc
  exact h (hc ▸ List.mem_map.mpr ⟨p, hp, rfl⟩)

theorem objErase_cons_self (k : String) (v : JVal) (rest : Obj) :
    objErase ((k, v) :: rest) k = objErase rest k := by
  rw [objErase, List.filter_cons_of_neg (by simp), objErase]

/-- The check `'state' in decryptedState && typeof decryptedState.state === 'string'`. -/
def hasStringState (m : Obj) : Bool :=
  match objLookup m "state" with
  | some (JVal.str _) => true
  | _ => false

/-- Whether an unseal result passes the orchestrator's state checks. -/
def stateOk : Option Obj → Bool
  | none => false
  | some m => hasStringState m

theorem callback_eq_core (P : Prims) (secret : String)
    (providers : List OAuthProvider) (id : String) (prov : OAuthProvider)
    (url : Url) (cv : String) (sealed : List Char)
    (hfind : providerFind providers id = some prov) :
    callback P secret providers id url cv sealed
      = callbackCore P secret prov url cv sealed := by
  unfold callback
  rw [hfind]

/-- C6: the callback fails with the orchestrator's InvalidState failure
(`AuthingyError('Invalid state')`) exactly when unsealing fails or the
unsealed mapping lacks a string `state` member; and in that case the failure
is independent of the provider's code-exchange and user-fetch behavior (it is
raised before any provider operation), so wrong secret, tampering and
malformed payload are indistinguishable to the caller.  The hypotheses state
that the provider's own operations never produce the orchestrator's exact
InvalidState error value (true of all repository providers, whose errors
carry the codes TOKEN_EXCHANGE_FAILED, INVALID_STATE with a message, or
USER_FETCH_FAILED). -/
theorem C6_invalid_state_iff (P : Prims) (secret : String)
    (providers : List OAuthProvider) (id : String) (prov : OAuthProvider)
    (url : Url) (cv : String) (sealed : List Char)
    (hfind : providerFind providers id = some prov)
    (hcb : ∀ u c s, prov.callbackFn u c s ≠ .error invalidStateErr)
    (huser : ∀ t, prov.userFn t ≠ .error invalidStateErr) :
    (callback P secret providers id url cv sealed = .error invalidStateErr
      ↔ stateOk (decrypt P secret sealed) = false) ∧
    (stateOk (decrypt P secret sealed) = false →
      ∀ f g, callbackCore P secret ⟨prov.id, prov.authorization, f, g⟩ url cv sealed
        = .error invalidStateErr) := by
  rw [callback_eq_core P secret providers id prov url cv sealed hfind]
  constructor
  · cases hdec : decrypt P secret sealed with
    | none => simp [callbackCore, hdec, stateOk]
    | some m =>
      cases hlk : objLookup m "state" with
      | none => simp [callbackCore, hdec, hlk, stateOk, hasStringState]
      | some v =>
        cases v with
        | str s =>
          simp only [callbackCore, hdec, hlk, stateOk, hasStringState]
          constructor
          · intro hres
            exfalso
            cases hc : prov.callbackFn url cv s with
            | error e =>
              simp only [hc] at hres
              have he : e = invalidStateErr := by injection hres
              exact hcb url cv s (by rw [hc, he])
            | ok t =>
              simp only [hc] at hres
              cases hu : prov.userFn t with
              | error e =>
                simp only [hu] at hres
                have he : e = invalidStateErr := by injection hres
                exact huser t (by rw [hu, he])
              | ok u =>
                simp only [hu] at hres
                exact absurd hres (by simp)
          · intro hres
            exact absurd hres (by simp)
        | num n => simp [callbackCore, hdec, hlk, stateOk, hasStringState]
        | bool b => simp [callbackCore, hdec, hlk, stateOk, hasStringState]
        | null => simp [callbackCore, hdec, hlk, stateOk, hasStringState]
  · intro hfail f g
    cases hdec : decrypt P secret sealed with
    | none => simp [callbackCore, hdec]
    | some m =>
      rw [hdec] at hfail
      cases hlk : objLookup m "state" with
      | none => simp [callbackCore, hdec, hlk]
      | some v =>
        cases v with
        | str s =>
          rw [stateOk, hasStringState, hlk] at hfail
          exact absurd hfail (by simp)
        | num n => simp [callbackCore, hdec, hlk]
        | bool b => simp [callbackCore, hdec, hlk]
        | null => simp [callbackCore, hdec, hlk]

/-- A trivial always-succeeding provider that echoes the CSRF state into its URL, used by several witnesses. -/
def pEcho : OAuthProvider :=
  ⟨"p", fun st _ => .ok ⟨"https://p.example/auth", [("state", st)]⟩,
    fun _ _ _ => .ok ⟨"tok"⟩, fun _ => .ok []⟩

/-- Witness for C6: a malformed sealed value makes the callback fail with the
orchestrator's InvalidState error. -/
theorem C6_invalid_state_iff_witness :
    callback toyPrims "s" [pEcho] "p" ⟨"https://cb.example", []⟩ "cv" ['x']
      = .error invalidStateErr :=
  (C6_invalid_state_iff toyPrims "s" [pEcho] "p" pEcho
    ⟨"https://cb.example", []⟩ "cv" ['x'] rfl
    (fun _ _ _ => by simp [pEcho]) (fun _ => by simp [pEcho])).1.mpr (by decide)

/-- C4 (amended): when the sealed state unseals to a mapping whose string
`state` member differs from the callback URL's `state` query parameter, and
the URL does carry a nonempty authorization code, the callback fails with the
x provider's state-mismatch failure, which is
`AuthingyError('INVALID_STATE', 'State mismatch in callback')` (the code base
has no separate STATE_MISMATCH error code).  When the code is absent or
empty, the missing-code failure TOKEN_EXCHANGE_FAILED takes precedence (see
the counterexample). -/
theorem C4_state_mismatch (P : Prims) (secret : String)
    (clientId clientSecret redirectUri : String) (scopes : List String)
    (sha256 : List Byte → List Byte) (utf8 : String → List Byte)
    (tokenFetch : String → List (String × String) → HttpResp)
    (parseToken : String → Token) (userFetch : String → HttpResp)
    (parseUser : String → Obj)
    (url : Url) (cv : String) (sealed : List Char) (m : Obj) (st c rs : String)
    (hdec : decrypt P secret sealed = some m)
    (hst : objLookup m "state" = some (JVal.str st))
    (hcode : urlGet url "code" = some c) (hcne : c ≠ "")
    (hrs : urlGet url "state" = some rs) (hne : rs ≠ st) :
    callback P secret
      [xProvider clientId clientSecret redirectUri scopes sha256 utf8
        tokenFetch parseToken userFetch parseUser]
      "x" url cv sealed = .error xStateMismatchErr := by
  have hfind : providerFind
      [xProvider clientId clientSecret redirectUri scopes sha256 utf8
        tokenFetch parseToken userFetch parseUser] "x"
      = some (xProvider clientId clientSecret redirectUri scopes sha256 utf8
        tokenFetch parseToken userFetch parseUser) := rfl
  rw [callback_eq_core P secret _ "x" _ url cv sealed hfind]
  simp only [callbackCore, hdec, hst]
  simp only [xProvider, hcode]
  rw [if_neg hcne, if_pos (by rw [hrs]; simp [hne])]

/-! Concrete x-provider instance for the C4 theorems: trivial stand-ins for
the external fetch/parse functions. -/

def xToyTokenFetch : String → List (String × String) → HttpResp :=
  fun _ _ => ⟨true, 200, "OK", "tok"⟩

def xToyParseToken : String → Token := fun b => ⟨b⟩

def xToyUserFetch : String → HttpResp := fun _ => ⟨true, 200, "OK", "usr"⟩

def xToyParseUser : String → Obj := fun b => [("id", JVal.str b)]

def xToy : OAuthProvider :=
  xProvider "cid" "csec" "https://app.example/cb" [] toySha bytesOfString
    xToyTokenFetch xToyParseToken xToyUserFetch xToyParseUser

def sealedC4 : List Char := encrypt toyPrims "s" [("state", JVal.str "s1")] ivZero

/-- C4 counterexample to the claim as stated: a callback URL whose state
parameter differs from the sealed CSRF value but which carries no
authorization code fails with the TOKEN_EXCHANGE_FAILED missing-code error,
not with the state-mismatch failure — so a state-differing callback does not
always fail with StateMismatch. -/
theorem C4_counterexample :
    decrypt toyPrims "s" sealedC4 = some [("state", JVal.str "s1")] ∧
    urlGet ⟨"https://app.example/cb", [("state", "s2")]⟩ "state" = some "s2" ∧
    ("s2" : String) ≠ "s1" ∧
    callback toyPrims "s" [xToy] "x" ⟨"https://app.example/cb", [("state", "s2")]⟩
      "cv" sealedC4 = .error xMissingCodeErr ∧
    xMissingCodeErr ≠ xStateMismatchErr := by
  exact ⟨by decide, by decide, by decide, by rfl, by decide⟩

/-- Witness for C4 (amended): with an authorization code present, the
mismatching state parameter produces exactly the state-mismatch failure. -/
theorem C4_state_mismatch_witness :
    callback toyPrims "s"
      [xProvider "cid" "csec" "https://app.example/cb" [] toySha bytesOfString
        xToyTokenFetch xToyParseToken xToyUserFetch xToyParseUser]
      "x" ⟨"https://app.example/cb", [("code", "abc"), ("state", "s2")]⟩
      "cv" sealedC4 = .error xStateMismatchErr :=
  C4_state_mismatch toyPrims "s" "cid" "csec" "https://app.example/cb" []
    toySha bytesOfString xToyTokenFetch xToyParseToken xToyUserFetch xToyParseUser
    ⟨"https://app.example/cb", [("code", "abc"), ("state", "s2")]⟩ "cv" sealedC4
    [("state", JVal.str "s1")] "s1" "abc" "s2"
    (by decide) (by decide) (by decide) (by decide) (by decide) (by decide)

/-- C3 (amended): for a registered provider whose URL builder is the shared
`buildAuthorizationUrl` (with extras leaving the standard keys alone), and
for extra data that does not use the reserved key "state", `authorize`
returns the provider-built URL, the sealed state and the code verifier; the
URL's query parameters include client_id, redirect_uri, response_type=code
and code_challenge_method=S256; the sealed state unseals to the mapping
`("state", csrf) :: extraData`, whose CSRF member equals the URL's state
query parameter; and the provider's builder receives the unsealed CSRF value
itself (the equation below applies `prov.authorization` at `st`, never at
the sealed envelope). -/
theorem C3_authorize (P : Prims) (secret : String)
    (providers : List OAuthProvider) (id : String) (prov : OAuthProvider)
    (data : Obj) (st cv : String) (iv : List Byte)
    (sha256 : List Byte → List Byte) (utf8 : String → List Byte)
    (ep cid ruri : String) (scopes : List String)
    (extras : List (String × String))
    (hfind : providerFind providers id = some prov)
    (hprov : prov.authorization st cv
      = .ok (buildAuthorizationUrl sha256 utf8 ep cid ruri scopes cv st extras))
    (hext : ∀ p ∈ extras, p.1 ∉ stdKeys)
    (hfresh : "state" ∉ objKeys data) (hnodup : (objKeys data).Nodup)
    (hiv : iv.length = 16)
    (hctne : (P.gcmEnc (keyToBuffer P secret) iv (P.jsonStr (stateWithData st data))).1 ≠ [])
    (htag : (P.gcmEnc (keyToBuffer P secret) iv (P.jsonStr (stateWithData st data))).2.length = 16)
    (hgcm : P.gcmDec (keyToBuffer P secret) iv
        (P.gcmEnc (keyToBuffer P secret) iv (P.jsonStr (stateWithData st data))).1
        (P.gcmEnc (keyToBuffer P secret) iv (P.jsonStr (stateWithData st data))).2
      = some (P.jsonStr (stateWithData st data)))
    (hjson : P.jsonParse (P.jsonStr (stateWithData st data))
      = some (stateWithData st data)) :
    authorize P secret providers id data st cv iv
      = .ok ⟨buildAuthorizationUrl sha256 utf8 ep cid ruri scopes cv st extras,
             encrypt P secret (stateWithData st data) iv, cv⟩ ∧
    urlGet (buildAuthorizationUrl sha256 utf8 ep cid ruri scopes cv st extras)
        "client_id" = some cid ∧
    urlGet (buildAuthorizationUrl sha256 utf8 ep cid ruri scopes cv st extras)
        "redirect_uri" = some ruri ∧
    urlGet (buildAuthorizationUrl sha256 utf8 ep cid ruri scopes cv st extras)
        "response_type" = some "code" ∧
    urlGet (buildAuthorizationUrl sha256 utf8 ep cid ruri scopes cv st extras)
        "code_challenge_method" = some "S256" ∧
    urlGet (buildAuthorizationUrl sha256 utf8 ep cid ruri scopes cv st extras)
        "state" = some st ∧
    decrypt P secret (encrypt P secret (stateWithData st data) iv)
      = some (("state", JVal.str st) :: data) := by
  have hstd := buildAuthorizationUrl_std_lookups sha256 utf8 ep cid ruri scopes
    cv st extras hext
  refine ⟨?_, hstd.1, hstd.2.1, hstd.2.2.1, hstd.2.2.2.2.2.1, hstd.2.2.2.2.2.2, ?_⟩
  · unfold authorize
    rw [hfind]
    simp only [hprov]
  · rw [decrypt_encrypt P secret (stateWithData st data) iv hiv hctne htag hgcm hjson,
      stateWithData_of_fresh st data hfresh hnodup]

/-- C3 counterexample to the claim as stated: when the extra data itself
contains the reserved key "state", the sealed payload's CSRF member is the
caller's value, which differs from the state query parameter carried by the
authorization URL, so the unsealed mapping does not contain a CSRF member
equal to the URL's state parameter. -/
theorem C3_counterexample :
    authorize toyPrims "s" [pEcho] "p" [("state", JVal.str "evil")] "gen" "cv" ivZero
      = .ok ⟨⟨"https://p.example/auth", [("state", "gen")]⟩,
             encrypt toyPrims "s" [("state", JVal.str "evil")] ivZero, "cv"⟩ ∧
    decrypt toyPrims "s" (encrypt toyPrims "s" [("state", JVal.str "evil")] ivZero)
      = some [("state", JVal.str "evil")] ∧
    ("evil" : String) ≠ "gen" := by
  exact ⟨by rfl, by decide, by decide⟩

/-- Witness for C3 (amended) at concrete inputs. -/
theorem C3_authorize_witness :
    authorize toyPrims "s" [⟨"p",
        fun st cv => .ok (buildAuthorizationUrl toySha bytesOfString
          "https://p.example/auth" "cid" "https://app.example/cb" ["openid"] cv st []),
        fun _ _ _ => .ok ⟨"tok"⟩, fun _ => .ok []⟩] "p"
      [("tag", JVal.str "x")] "gen" "cv" ivZero
      = .ok ⟨buildAuthorizationUrl toySha bytesOfString "https://p.example/auth"
          "cid" "https://app.example/cb" ["openid"] "cv" "gen" [],
          encrypt toyPrims "s" (stateWithData "gen" [("tag", JVal.str "x")]) ivZero,
          "cv"⟩ ∧
    decrypt toyPrims "s"
        (encrypt toyPrims "s" (stateWithData "gen" [("tag", JVal.str "x")]) ivZero)
      = some [("state", JVal.str "gen"), ("tag", JVal.str "x")] := by
  have h := C3_authorize toyPrims "s" [⟨"p",
      fun st cv => .ok (buildAuthorizationUrl toySha bytesOfString
        "https://p.example/auth" "cid" "https://app.example/cb" ["openid"] cv st []),
      fun _ _ _ => .ok ⟨"tok"⟩, fun _ => .ok []⟩] "p" _
    [("tag", JVal.str "x")] "gen" "cv" ivZero toySha bytesOfString
    "https://p.example/auth" "cid" "https://app.example/cb" ["openid"] []
    rfl rfl (by decide) (by decide) (by decide) (by decide) (by decide)
    (by decide) (by decide) (by decide)
  exact ⟨h.1, h.2.2.2.2.2.2⟩

/-- C5 (amended): for extra data that does not use the reserved key "state",
a successful callback on the sealed state produced by `authorize` returns a
`data` field equal to the original extra data, unmodified, with only the
orchestrator's CSRF member removed. -/
theorem C5_extra_data_roundtrip (P : Prims) (secret : String)
    (providers : List OAuthProvider) (id : String) (prov : OAuthProvider)
    (data : Obj) (st cv : String) (iv : List Byte) (url : Url)
    (token : Token) (user : Obj)
    (hfind : providerFind providers id = some prov)
    (hfresh : "state" ∉ objKeys data) (hnodup : (objKeys data).Nodup)
    (hiv : iv.length = 16)
    (hctne : (P.gcmEnc (keyToBuffer P secret) iv (P.jsonStr (stateWithData st data))).1 ≠ [])
    (htag : (P.gcmEnc (keyToBuffer P secret) iv (P.jsonStr (stateWithData st data))).2.length = 16)
    (hgcm : P.gcmDec (keyToBuffer P secret) iv
        (P.gcmEnc (keyToBuffer P secret) iv (P.jsonStr (stateWithData st data))).1
        (P.gcmEnc (keyToBuffer P secret) iv (P.jsonStr (stateWithData st data))).2
      = some (P.jsonStr (stateWithData st data)))
    (hjson : P.jsonParse (P.jsonStr (stateWithData st data))
      = some (stateWithData st data))
    (hcb : prov.callbackFn url cv st = .ok token)
    (huser : prov.userFn token = .ok user) :
    callback P secret providers id url cv
        (encrypt P secret (stateWithData st data) iv)
      = .ok ⟨user, token, data⟩ := by
  rw [callback_eq_core P secret providers id prov url cv _ hfind]
  have hdec := decrypt_encrypt P secret (stateWithData st data) iv hiv hctne htag
    hgcm hjson
  rw [stateWithData_of_fresh st data hfresh hnodup] at hdec ⊢
  have hlk : objLookup (("state", JVal.str st) :: data) "state"
      = some (JVal.str st) := by rw [objLookup_cons, if_pos rfl]
  simp only [callbackCore, hdec, hlk, hcb, huser]
  rw [objErase_cons_self, objErase_not_mem data "state" hfresh]

/-- C5 counterexample to the claim as stated: extra data that itself contains
the key "state" is not returned unmodified — the callback's data field is the
unsealed mapping with that key removed, here the empty mapping. -/
theorem C5_counterexample :
    callback toyPrims "s" [pEcho] "p" ⟨"https://cb.example", []⟩ "cv"
        (encrypt toyPrims "s" (stateWithData "gen" [("state", JVal.str "x")]) ivZero)
      = .ok ⟨[], ⟨"tok"⟩, []⟩ ∧
    ([] : Obj) ≠ [("state", JVal.str "x")] :=
  ⟨by rfl, by decide⟩

/-- Witness for C5 (amended) at concrete inputs. -/
theorem C5_extra_data_roundtrip_witness :
    callback toyPrims "s" [pEcho] "p" ⟨"https://cb.example", []⟩ "cv"
        (encrypt toyPrims "s" (stateWithData "gen" [("tag", JVal.str "x")]) ivZero)
      = .ok ⟨[], ⟨"tok"⟩, [("tag", JVal.str "x")]⟩ :=
  C5_extra_data_roundtrip toyPrims "s" [pEcho] "p" pEcho [("tag", JVal.str "x")]
    "gen" "cv" ivZero ⟨"https://cb.example", []⟩ ⟨"tok"⟩ [] rfl
    (by decide) (by decide) (by decide) (by decide) (by decide) (by decide)
    (by decide) rfl rfl

/-- C10: the key "state" is a reserved key of the sealed payload.  If the
caller's extra data contains "state", the sealed payload's "state" member is
the caller's value (the spread silently replaces the generated CSRF state),
while the authorization URL still carries the generated value; and on every
successful callback the returned data mapping is the unsealed mapping with
the "state" key removed, so it never contains that key. -/
theorem C10_reserved_state_key (P : Prims) (secret : String)
    (providers : List OAuthProvider) (id : String) (prov : OAuthProvider)
    (data : Obj) (st cv : String) (iv : List Byte) (v : JVal)
    (sha256 : List Byte → List Byte) (utf8 : String → List Byte)
    (ep cid ruri : String) (scopes : List String)
    (extras : List (String × String))
    (hfind : providerFind providers id = some prov)
    (hdata : objLookup data "state" = some v)
    (hnodup : (objKeys data).Nodup)
    (hprov : prov.authorization st cv
      = .ok (buildAuthorizationUrl sha256 utf8 ep cid ruri scopes cv st extras))
    (hext : ∀ p ∈ extras, p.1 ∉ stdKeys) :
    authorize P secret providers id data st cv iv
      = .ok ⟨buildAuthorizationUrl sha256 utf8 ep cid ruri scopes cv st extras,
             encrypt P secret (stateWithData st data) iv, cv⟩ ∧
    objLookup (stateWithData st data) "state" = some v ∧
    urlGet (buildAuthorizationUrl sha256 utf8 ep cid ruri scopes cv st extras)
        "state" = some st ∧
    (∀ url2 cv2 sealed r,
      callback P secret providers id url2 cv2 sealed = .ok r →
        objLookup r.data "state" = none) := by
  refine ⟨?_, ?_, ?_, ?_⟩
  · unfold authorize
    rw [hfind]
    simp only [hprov]
  · exact objLookup_objSpread_first data "state" v hnodup hdata _
  · exact (buildAuthorizationUrl_std_lookups sha256 utf8 ep cid ruri scopes cv st
      extras hext).2.2.2.2.2.2
  · intro url2 cv2 sealed r hres
    rw [callback_eq_core P secret providers id prov url2 cv2 sealed hfind] at hres
    cases hdec : decrypt P secret sealed with
    | none =>
      simp only [callbackCore, hdec] at hres
      exact absurd hres (by simp)
    | some m =>
      simp only [callbackCore, hdec] at hres
      cases hlk : objLookup m "state" with
      | none =>
        simp only [hlk] at hres
        exact absurd hres (by simp)
      | some w =>
        cases w with
        | str s =>
          simp only [hlk] at hres
          cases hcb : prov.callbackFn url2 cv2 s with
          | error e =>
            simp only [hcb] at hres
            exact absurd hres (by simp)
          | ok t =>
            simp only [hcb] at hres
            cases hu : prov.userFn t with
            | error e =>
              simp only [hu] at hres
              exact absurd hres (by simp)
            | ok usr =>
              simp only [hu] at hres
              have hr : (⟨usr, t, objErase m "state"⟩ : CallbackResult) = r := by
                injection hres
              rw [← hr]
              exact objLookup_objErase_self m "state"
        | num n =>
          simp only [hlk] at hres
          exact absurd hres (by simp)
        | bool b =>
          simp only [hlk] at hres
          exact absurd hres (by simp)
        | null =>
          simp only [hlk] at hres
          exact absurd hres (by simp)

/-- Witness for C10 at concrete inputs: the caller's value "evil" occupies the
sealed payload's "state" member while the URL carries the generated value, and
a successful callback's data mapping has no "state" key. -/
theorem C10_reserved_state_key_witness :
    objLookup (stateWithData "gen" [("state", JVal.str "evil")]) "state"
      = some (JVal.str "evil") ∧
    urlGet (buildAuthorizationUrl toySha bytesOfString "https://p.example/auth"
        "cid" "https://app.example/cb" ["openid"] "cv" "gen" []) "state"
      = some "gen" := by
  have h := C10_reserved_state_key toyPrims "s" [⟨"p",
      fun st cv => .ok (buildAuthorizationUrl toySha bytesOfString
        "https://p.example/auth" "cid" "https://app.example/cb" ["openid"] cv st []),
      fun _ _ _ => .ok ⟨"tok"⟩, fun _ => .ok []⟩] "p" _
    [("state", JVal.str "evil")] "gen" "cv" ivZero (JVal.str "evil")
    toySha bytesOfString "https://p.example/auth" "cid" "https://app.example/cb"
    ["openid"] [] rfl (by decide) (by decide) rfl (by decide)
  exact ⟨h.2.1, h.2.2.1⟩

/-! ### Google provider discovery memoization (src/providers/google.ts)

The provider keeps a mutable closure variable `as` caching the discovered
authorization server.  The closure state is modelled by explicit state
passing (`Option AuthorizationServer`), an operation returns its result, the
new cache state, and the number of discovery requests
(`getAuthorizationServer(issuer)` network calls) it performed. -/

/-- `oauth.AuthorizationServer`, reduced to the field the provider reads. -/
structure AuthorizationServer where
  authorization_endpoint : Option String
deriving DecidableEq, Repr

/-- The memoizing helper `authorizationServer()` in google.ts: returns the
cached value, or discovers and fills the cache.  The third component counts
discovery requests. -/
def googleAuthorizationServer (disc : Unit → AuthorizationServer) :
    Option AuthorizationServer
      → AuthorizationServer × Option AuthorizationServer × Nat
  | some a => (a, some a, 0)
  | none => (disc (), some (disc ()), 1)

/-- google._authorization: checks the code verifier, calls (and re-assigns)
the memoized `authorizationServer()`, checks the endpoint, and builds the
URL with Google's three extra parameters. -/
def googleAuthorizationStep (disc : Unit → AuthorizationServer)
    (sha256 : List Byte → List Byte) (utf8 : String → List Byte)
    (clientId redirectUri : String) (scopes : List String) (st cv : String)
    (cache : Option AuthorizationServer) :
    Except AuthErr Url × Option AuthorizationServer × Nat :=
  if cv = "" then (.error ⟨"codeVerifier is required", none, none⟩, cache, 0)
  else
    let r := googleAuthorizationServer disc cache
    match r.1.authorization_endpoint with
    | none => (.error ⟨"Authorization endpoint not found", none, none⟩, r.2.1, r.2.2)
    | some ep =>
      (.ok (buildAuthorizationUrl sha256 utf8 ep clientId redirectUri scopes cv st
        [("access_type", "offline"), ("prompt", "consent"),
         ("include_granted_scopes", "true")]), r.2.1, r.2.2)

/-- google._callback: reads the memoized `authorizationServer()`, then runs
the external oauth4webapi exchange (abstracted as `exchange`). -/
def googleCallbackStep (disc : Unit → AuthorizationServer)
    (exchange : AuthorizationServer → Url → String → String → Except AuthErr Token)
    (url : Url) (cv st : String) (cache : Option AuthorizationServer) :
    Except AuthErr Token × Option AuthorizationServer × Nat :=
  let r := googleAuthorizationServer disc cache
  (exchange r.1 url cv st, r.2.1, r.2.2)

/-- google._user: calls `getAuthorizationServer(issuer)` directly
(google.ts line 131), performing a discovery request on every invocation and
neither consulting nor updating the memoized cache; the external
userinfo-request/validation pipeline is abstracted as `userinfo`. -/
def googleUserStep (disc : Unit → AuthorizationServer)
    (userinfo : AuthorizationServer → String → Except AuthErr Obj)
    (token : Token) (cache : Option AuthorizationServer) :
    Except AuthErr Obj × Option AuthorizationServer × Nat :=
  (userinfo (disc ()) token.access_token, cache, 1)

/-- C9 (code bug): with a warm discovery cache, `_authorization` and
`_callback` perform no discovery request, but `_user` performs one discovery
request on every call — even immediately after the cache was filled — and
leaves the cache unchanged, contradicting the claim (and §4.2 of the spec)
that every later fetchUser call on the same instance reuses the cached
endpoint set and performs no further discovery request. -/
theorem C9_google_user_rediscovers (disc : Unit → AuthorizationServer)
    (sha256 : List Byte → List Byte) (utf8 : String → List Byte)
    (clientId redirectUri : String) (scopes : List String) (st cv : String)
    (exchange : AuthorizationServer → Url → String → String → Except AuthErr Token)
    (userinfo : AuthorizationServer → String → Except AuthErr Obj)
    (url : Url) (token : Token) (a : AuthorizationServer)
    (hcv : cv ≠ "") :
    (googleAuthorizationStep disc sha256 utf8 clientId redirectUri scopes st cv
        (some a)).2.2 = 0 ∧
    (googleCallbackStep disc exchange url cv st (some a)).2.2 = 0 ∧
    (googleUserStep disc userinfo token (some a)).2.2 = 1 ∧
    (googleUserStep disc userinfo token (some a)).2.1 = some a := by
  refine ⟨?_, rfl, rfl, rfl⟩
  unfold googleAuthorizationStep
  rw [if_neg hcv]
  simp only [googleAuthorizationServer]
  cases a.authorization_endpoint <;> rfl

/-- Witness for C9 at a concrete provider state. -/
theorem C9_google_user_rediscovers_witness :
    (googleUserStep (fun _ => ⟨some "https://acc.example/auth"⟩)
        (fun _ _ => .ok []) ⟨"tok"⟩ (some ⟨some "https://acc.example/auth"⟩)).2.2 = 1 ∧
    (googleAuthorizationStep (fun _ => ⟨some "https://acc.example/auth"⟩)
        toySha bytesOfString "cid" "https://app.example/cb" ["openid"] "st" "cv"
        (some ⟨some "https://acc.example/auth"⟩)).2.2 = 0 := by
  have h := C9_google_user_rediscovers (fun _ => ⟨some "https://acc.example/auth"⟩)
    toySha bytesOfString "cid" "https://app.example/cb" ["openid"] "st" "cv"
    (fun _ _ _ _ => .ok ⟨"tok"⟩) (fun _ _ => .ok [])
    ⟨"https://cb.example", []⟩ ⟨"tok"⟩ ⟨some "https://acc.example/auth"⟩
    (by decide)
  exact ⟨h.2.2.1, h.1⟩
